import Mathlib

/-!
Shallow embedding of the order/address routes of the shopback e-commerce
backend (src/routes/orders.js) together with the relational state they
act on (src/config/database.js).

Monetary values (`price`, `discount`, `total_price`, `subtotal`) are
modelled as rationals; `stock_quantity` and item quantities are integers
(the SQL columns are INTEGER); ids are naturals (SERIAL columns).
Request fields that may be absent from the JSON body are `Option`s, with
`none` playing the role of `undefined`; JavaScript truthiness tests on
those fields are modelled explicitly (`0`, `""` and `undefined` are
falsy).
-/

namespace Shopback

/-- A row of the `products` table. -/
structure Product where
  id : Nat
  name : String
  price : ℚ
  discount : ℚ
  stock_quantity : Int
  deriving DecidableEq

/-- A row of the `customer_addresses` table. -/
structure Address where
  id : Nat
  user_id : Nat
  address : String
  phone : String
  city : String
  is_default : Bool
  deriving DecidableEq

/-- A row of the `orders` table (timestamps collapsed to `updated_at`,
modelled as a natural number). -/
structure Order where
  id : Nat
  user_id : Nat
  address_id : Nat
  total_price : ℚ
  status : String
  payment_status : String
  updated_at : Nat
  deriving DecidableEq

/-- A row of the `order_items` table. -/
structure OrderItem where
  order_id : Nat
  product_id : Nat
  quantity : Int
  price : ℚ
  subtotal : ℚ
  deriving DecidableEq

/-- The database state visible to the order/address routes. -/
structure DB where
  products : List Product
  addresses : List Address
  orders : List Order
  order_items : List OrderItem
  deriving DecidableEq

/-- One entry of the `items` array of an order-creation request body.
`none` models an absent (`undefined`) field. -/
structure ItemReq where
  product_id : Option Nat
  quantity : Option Int
  deriving DecidableEq

/-- JavaScript truthiness of an optional numeric id (`!address_id`,
`!product_id`): absent and `0` are falsy. -/
def truthyNat : Option Nat → Bool
  | none => false
  | some n => n != 0

/-- JavaScript truthiness of an optional string (`status && ...`):
absent and `""` are falsy. -/
def truthyStr : Option String → Bool
  | none => false
  | some s => s != ""

/-- Errors thrown inside the order-creation transaction body
(`router.post('/')`, src/routes/orders.js lines 445-499).  All of them
are caught by the outer handler, which rolls the transaction back and
answers with HTTP 500. -/
inductive OrderErr where
  | invalidItem
  | productMissing (pid : Nat)
  | insufficientStock (name : String) (available requested : Int)
  deriving DecidableEq

/-- The message attached to each thrown error (string interpolation of
src/routes/orders.js lines 449, 456, 463). -/
def errMessage : OrderErr → String
  | .invalidItem => "Each item must have a valid product_id and positive quantity"
  | .productMissing pid => "Product with ID " ++ toString pid ++ " not found"
  | .insufficientStock n a r =>
      "Insufficient stock for product " ++ n ++ ". Available: " ++ toString a ++
        ", Requested: " ++ toString r

/-- Outcome of the order-creation endpoint. -/
inductive CreateResult where
  | created (ord : Order) (items : List OrderItem)
  | validationErr
  | addressMissing
  | serverErr (e : OrderErr)
  deriving DecidableEq

/-- HTTP status sent for each order-creation outcome: 201 on success,
400 for the top-level body validation, 404 for the address ownership
check, and 500 from the outer catch for everything thrown inside the
transaction. -/
def createStatus : CreateResult → Nat
  | .created _ _ => 201
  | .validationErr => 400
  | .addressMissing => 404
  | .serverErr _ => 500

/-- One priced line produced by the item loop (the `orderItems` array of
the handler). -/
structure ItemLine where
  product_id : Nat
  quantity : Int
  price : ℚ
  subtotal : ℚ
  deriving DecidableEq

/-- The SQL statement `UPDATE products SET stock_quantity =
stock_quantity - $1 WHERE id = $2`. -/
def applyDecrement (ps : List Product) (pid : Nat) (q : Int) : List Product :=
  ps.map fun p => if p.id = pid then { p with stock_quantity := p.stock_quantity - q } else p

/-- The per-item loop of the order-creation transaction
(src/routes/orders.js lines 445-482): validate the entry, fetch the
product, check stock, price the line with the current discount, and
decrement stock before moving to the next entry. -/
def processItems : List Product → List ItemReq → Except OrderErr (List Product × ℚ × List ItemLine)
  | ps, [] => .ok (ps, 0, [])
  | ps, it :: rest =>
    match it.product_id, it.quantity with
    | some pid, some q =>
      if pid = 0 ∨ q ≤ 0 then .error .invalidItem
      else
        match ps.find? (fun p => p.id == pid) with
        | none => .error (.productMissing pid)
        | some p =>
          if p.stock_quantity < q then
            .error (.insufficientStock p.name p.stock_quantity q)
          else
            let price := p.price * (1 - p.discount / 100)
            let sub := price * (q : ℚ)
            match processItems (applyDecrement ps pid q) rest with
            | .error e => .error e
            | .ok (ps', tot, lines) => .ok (ps', sub + tot, ⟨pid, q, price, sub⟩ :: lines)
    | _, _ => .error .invalidItem

/-- The order-creation endpoint `router.post('/')`
(src/routes/orders.js lines 409-523).  On any error thrown inside the
transaction the `ROLLBACK` restores the original state, so the endpoint
returns the incoming database unchanged together with the error
outcome. -/
def createOrder (db : DB) (userId : Nat) (address_id : Option Nat)
    (items : Option (List ItemReq)) (newOrderId : Nat) : DB × CreateResult :=
  match address_id, items with
  | some aid, some its =>
    if aid == 0 || its.isEmpty then (db, .validationErr)
    else if (db.addresses.find? fun a => a.id == aid && a.user_id == userId).isNone then
      (db, .addressMissing)
    else
      match processItems db.products its with
      | .error e => (db, .serverErr e)
      | .ok (ps', total, lines) =>
        let ord : Order := ⟨newOrderId, userId, aid, total, "pending", "unpaid", 0⟩
        let ois := lines.map fun l => OrderItem.mk newOrderId l.product_id l.quantity l.price l.subtotal
        ({ db with
            products := ps'
            orders := db.orders ++ [ord]
            order_items := db.order_items ++ ois },
          .created ord ois)
  | _, _ => (db, .validationErr)

/-- The status enum of the `orders.status` column accepted by the
status-update endpoint. -/
def validStatuses : List String := ["pending", "processing", "shipped", "delivered", "cancelled"]

/-- The payment-status enum accepted by the status-update endpoint. -/
def validPaymentStatuses : List String := ["unpaid", "paid", "refunded"]

/-- Outcome of the status-update endpoint. -/
inductive StatusResult where
  | invalidStatus
  | invalidPayment
  | orderMissing
  | noFields
  | updated (o : Order)
  deriving DecidableEq

/-- HTTP status sent for each status-update outcome. -/
def statusHttp : StatusResult → Nat
  | .invalidStatus => 400
  | .invalidPayment => 400
  | .orderMissing => 404
  | .noFields => 400
  | .updated _ => 200

/-- The `UPDATE orders SET ...` of the status-update endpoint applied to
one row: each provided field is written, `updated_at` is always
refreshed. -/
def applyStatusUpdate (o : Order) (status payment_status : Option String) (now : Nat) : Order :=
  { o with
      status := status.getD o.status
      payment_status := payment_status.getD o.payment_status
      updated_at := now }

/-- The status-update endpoint `router.put('/:id/status')`
(src/routes/orders.js lines 638-723): enum checks (guarded by JavaScript
truthiness, so an empty string skips them), then the existence check,
then the at-least-one-field check, then the update. -/
def updateOrderStatus (db : DB) (id : Nat) (status payment_status : Option String)
    (now : Nat) : DB × StatusResult :=
  if truthyStr status && !(validStatuses.contains (status.getD "")) then
    (db, .invalidStatus)
  else if truthyStr payment_status && !(validPaymentStatuses.contains (payment_status.getD "")) then
    (db, .invalidPayment)
  else
    match db.orders.find? (fun o => o.id == id) with
    | none => (db, .orderMissing)
    | some o₀ =>
      if status.isNone && payment_status.isNone then (db, .noFields)
      else
        ({ db with
            orders := db.orders.map fun o =>
              if o.id = id then applyStatusUpdate o status payment_status now else o },
          .updated (applyStatusUpdate o₀ status payment_status now))

/-- The SQL statement `UPDATE customer_addresses SET is_default = false
WHERE user_id = $1`. -/
def unsetDefaults (l : List Address) (userId : Nat) : List Address :=
  l.map fun a => if a.user_id = userId then { a with is_default := false } else a

/-- The address-creation endpoint `router.post('/addresses')`
(src/routes/orders.js lines 70-105): required-field check, then, when
`is_default` is truthy, unset the user's other defaults, then insert.
`none` is the 400 validation outcome. -/
def createAddress (db : DB) (userId : Nat) (addr phone city : String)
    (is_default : Bool) (newId : Nat) : DB × Option Address :=
  if addr == "" || phone == "" || city == "" then (db, none)
  else
    let base := if is_default then unsetDefaults db.addresses userId else db.addresses
    let na : Address := ⟨newId, userId, addr, phone, city, is_default⟩
    ({ db with addresses := base ++ [na] }, some na)

/-- Outcome of the address-update endpoint. -/
inductive UpdateAddrResult where
  | addrMissing
  | noFields
  | ok (a : Option Address)
  deriving DecidableEq

/-- The fields of one address row overwritten by the dynamic
`UPDATE customer_addresses SET ...`: each provided field is written. -/
def applyAddrUpdate (a : Address) (addr phone city : Option String)
    (is_default : Option Bool) : Address :=
  { a with
      address := addr.getD a.address
      phone := phone.getD a.phone
      city := city.getD a.city
      is_default := is_default.getD a.is_default }

/-- The address-update endpoint `router.put('/addresses/:id')`
(src/routes/orders.js lines 108-179): ownership check, then, when
`is_default` is truthy, unset all the user's defaults, then the
at-least-one-field check, then the dynamic update scoped by
`WHERE id = .. AND user_id = ..`. -/
def updateAddress (db : DB) (userId id : Nat) (addr phone city : Option String)
    (is_default : Option Bool) : DB × UpdateAddrResult :=
  match db.addresses.find? (fun a => a.id == id && a.user_id == userId) with
  | none => (db, .addrMissing)
  | some _ =>
    let base := if is_default.getD false then unsetDefaults db.addresses userId else db.addresses
    if addr.isNone && phone.isNone && city.isNone && is_default.isNone then
      ({ db with addresses := base }, .noFields)
    else
      let addresses' := base.map fun a =>
        if a.id = id ∧ a.user_id = userId then applyAddrUpdate a addr phone city is_default else a
      ({ db with addresses := addresses' },
        .ok (addresses'.find? fun a => a.id == id && a.user_id == userId))

/-- The address-deletion endpoint `router.delete('/addresses/:id')`
(src/routes/orders.js lines 182-213): ownership check, then
`DELETE FROM customer_addresses WHERE id = .. AND user_id = ..`.  The
boolean records whether a row was found. -/
def deleteAddress (db : DB) (userId id : Nat) : DB × Bool :=
  match db.addresses.find? (fun a => a.id == id && a.user_id == userId) with
  | none => (db, false)
  | some _ =>
    ({ db with addresses := db.addresses.filter fun a => !(a.id == id && a.user_id == userId) },
      true)

/-- Number of default addresses a user has. -/
def defaultCount (db : DB) (u : Nat) : Nat :=
  db.addresses.countP fun a => a.user_id == u && a.is_default

/-- Invariant: every customer has at most one default address. -/
def atMostOneDefault (db : DB) : Prop :=
  ∀ u : Nat, defaultCount db u ≤ 1

/-- Well-formedness of a request item: present, non-zero product id and
positive quantity. -/
def itemWf (it : ItemReq) : Prop :=
  ∃ pid q, it.product_id = some pid ∧ it.quantity = some q ∧ pid ≠ 0 ∧ 0 < q

/-- Combined quantity that a request's items ask of one product id. -/
def combinedQty (its : List ItemReq) (pid : Nat) : Int :=
  (its.map fun it => if it.product_id = some pid then (it.quantity.getD 0) else 0).sum

/-- Sum of quantities that the produced order lines take from one
product id. -/
def sumLines (ls : List ItemLine) (pid : Nat) : Int :=
  (ls.map fun l => if l.product_id = pid then l.quantity else 0).sum

/-- Sample state: one product (stock 5, price 100, discount 10) and one
address owned by user 1. -/
def dbA : DB :=
  { products := [⟨1, "P", 100, 10, 5⟩]
    addresses := [⟨1, 1, "a", "p", "c", true⟩]
    orders := []
    order_items := [] }

/-- Sample state: as `dbA` but with stock 3. -/
def dbB : DB :=
  { products := [⟨1, "P", 100, 10, 3⟩]
    addresses := [⟨1, 1, "a", "p", "c", true⟩]
    orders := []
    order_items := [] }

/-- Sample state: a single pending order. -/
def dbO : DB :=
  { products := []
    addresses := []
    orders := [⟨1, 1, 1, 0, "pending", "unpaid", 0⟩]
    order_items := [] }

/-- The empty database. -/
def db0 : DB :=
  { products := [], addresses := [], orders := [], order_items := [] }

theorem forall₂_mem_right {α β : Type} {R : α → β → Prop} {l : List α} {l' : List β}
    (h : List.Forall₂ R l l') {b : β} (hb : b ∈ l') : ∃ a ∈ l, R a b := by
  induction h with
  | nil => cases hb
  | cons hr _ ih =>
    rcases List.mem_cons.mp hb with rfl | hb'
    · exact ⟨_, List.mem_cons_self .., hr⟩
    · obtain ⟨a, ha, har⟩ := ih hb'
      exact ⟨a, List.mem_cons_of_mem _ ha, har⟩

theorem forall₂_mem_left {α β : Type} {R : α → β → Prop} {l : List α} {l' : List β}
    (h : List.Forall₂ R l l') {a : α} (ha : a ∈ l) : ∃ b ∈ l', R a b := by
  induction h with
  | nil => cases ha
  | cons hr _ ih =>
    rcases List.mem_cons.mp ha with rfl | ha'
    · exact ⟨_, List.mem_cons_self .., hr⟩
    · obtain ⟨b, hb, hbr⟩ := ih ha'
      exact ⟨b, List.mem_cons_of_mem _ hb, hbr⟩

theorem applyDecrement_map_id (ps : List Product) (pid : Nat) (q : Int) :
    (applyDecrement ps pid q).map Product.id = ps.map Product.id := by
  simp only [applyDecrement, List.map_map]
  refine List.map_congr_left fun p _ => ?_
  by_cases h : p.id = pid <;> simp [Function.comp, h]

theorem applyDecrement_nodup {ps : List Product} (hnd : (ps.map Product.id).Nodup)
    (pid : Nat) (q : Int) : ((applyDecrement ps pid q).map Product.id).Nodup := by
  rw [applyDecrement_map_id]; exact hnd

theorem mem_applyDecrement {ps : List Product} {p : Product} (hp : p ∈ ps) (pid : Nat) (q : Int) :
    (if p.id = pid then { p with stock_quantity := p.stock_quantity - q } else p)
      ∈ applyDecrement ps pid q :=
  List.mem_map_of_mem _ hp

theorem find_id_eq_of_nodup {ps : List Product} (hnd : (ps.map Product.id).Nodup)
    {p : Product} (hp : p ∈ ps) {pid : Nat} (hid : p.id = pid) :
    ps.find? (fun x => x.id == pid) = some p := by
  obtain ⟨p₀, h₀⟩ : ∃ b, ps.find? (fun x => x.id == pid) = some b := by
    have hs : (ps.find? (fun x => x.id == pid)).isSome :=
      List.find?_isSome.mpr ⟨p, hp, by simp [hid]⟩
    exact Option.isSome_iff_exists.mp hs
  have hmem := List.mem_of_find?_eq_some h₀
  have hpid : p₀.id = pid := by simpa using List.find?_some h₀
  have heq : p₀ = p := List.inj_on_of_nodup_map hnd hmem hp (by rw [hpid, hid])
  rw [h₀, heq]

theorem processItems_cons_ok {ps : List Product} {it : ItemReq} {rest : List ItemReq}
    {out : List Product × ℚ × List ItemLine}
    (h : processItems ps (it :: rest) = .ok out) :
    ∃ pid q p, it.product_id = some pid ∧ it.quantity = some q ∧ ¬(pid = 0 ∨ q ≤ 0) ∧
      ps.find? (fun x => x.id == pid) = some p ∧ ¬(p.stock_quantity < q) ∧
      ∃ ps' tot lines, processItems (applyDecrement ps pid q) rest = .ok (ps', tot, lines) ∧
        out = (ps', p.price * (1 - p.discount / 100) * (q : ℚ) + tot,
          ⟨pid, q, p.price * (1 - p.discount / 100),
            p.price * (1 - p.discount / 100) * (q : ℚ)⟩ :: lines) := by
  cases hpid : it.product_id with
  | none => simp [processItems, hpid] at h
  | some pid =>
    cases hq : it.quantity with
    | none => simp [processItems, hpid, hq] at h
    | some q =>
      by_cases hg : pid = 0 ∨ q ≤ 0
      · simp [processItems, hpid, hq, hg] at h
      · cases hf : ps.find? (fun x => x.id == pid) with
        | none => simp [processItems, hpid, hq, hg, hf] at h
        | some p =>
          by_cases hs : p.stock_quantity < q
          · simp [processItems, hpid, hq, hg, hf, hs] at h
          · cases hrec : processItems (applyDecrement ps pid q) rest with
            | error e => simp [processItems, hpid, hq, hg, hf, hs, hrec] at h
            | ok o =>
              obtain ⟨ps', tot, lines⟩ := o
              refine ⟨pid, q, p, rfl, rfl, hg, hf, hs, ps', tot, lines, hrec, ?_⟩
              simp only [processItems, hpid, hq, if_neg hg, hf, if_neg hs, hrec] at h
              exact (Except.ok.inj h).symm

theorem forall₂_applyDecrement_elim {R : Product → Product → Prop} {ps ps' : List Product}
    {pid : Nat} {q : Int} (h : List.Forall₂ R (applyDecrement ps pid q) ps') :
    List.Forall₂ (fun p p' =>
      (p.id = pid → R { p with stock_quantity := p.stock_quantity - q } p') ∧
      (p.id ≠ pid → R p p')) ps ps' := by
  induction ps generalizing ps' with
  | nil => cases h; exact .nil
  | cons a l ihp =>
    rw [show applyDecrement (a :: l) pid q =
        (if a.id = pid then { a with stock_quantity := a.stock_quantity - q } else a) ::
          applyDecrement l pid q from rfl] at h
    cases h with
    | cons hr ht =>
      refine .cons ⟨?_, ?_⟩ (ihp ht)
      · intro hc; rwa [if_pos hc] at hr
      · intro hc; rwa [if_neg hc] at hr

theorem sumLines_nil (pid : Nat) : sumLines [] pid = 0 := rfl

theorem sumLines_cons (l : ItemLine) (ls : List ItemLine) (pid : Nat) :
    sumLines (l :: ls) pid =
      (if l.product_id = pid then l.quantity else 0) + sumLines ls pid := by
  simp [sumLines]

theorem processItems_ok_forall₂ {its : List ItemReq} {ps ps' : List Product} {tot : ℚ}
    {ls : List ItemLine} (h : processItems ps its = .ok (ps', tot, ls)) :
    List.Forall₂ (fun p p' => p'.id = p.id ∧ p'.name = p.name ∧ p'.price = p.price ∧
      p'.discount = p.discount ∧
      p'.stock_quantity = p.stock_quantity - sumLines ls p.id) ps ps' := by
  induction its generalizing ps tot ls with
  | nil =>
    simp only [processItems, Except.ok.injEq, Prod.mk.injEq] at h
    obtain ⟨rfl, rfl, rfl⟩ := h
    exact List.forall₂_same.mpr fun p _ => ⟨rfl, rfl, rfl, rfl, by simp [sumLines]⟩
  | cons it rest ih =>
    obtain ⟨pid, q, p₀, hpid, hq, hg, hf, hs, ps₂, tot₂, lines₂, hrec, hout⟩ :=
      processItems_cons_ok h
    obtain ⟨rfl, rfl, rfl⟩ : ps' = ps₂ ∧ tot = _ ∧ ls = _ := by
      rw [Prod.mk.injEq, Prod.mk.injEq] at hout
      exact ⟨hout.1, hout.2.1, hout.2.2⟩
    have h₂ := forall₂_applyDecrement_elim (ih hrec)
    refine h₂.imp fun p p' hpp => ?_
    have hSL : sumLines (⟨pid, q, p₀.price * (1 - p₀.discount / 100),
        p₀.price * (1 - p₀.discount / 100) * (q : ℚ)⟩ :: lines₂) p.id =
        (if pid = p.id then q else 0) + sumLines lines₂ p.id := by
      rw [sumLines_cons]
    by_cases hcase : p.id = pid
    · obtain ⟨h1, h2, h3, h4, h5⟩ := hpp.1 hcase
      have h5' : p'.stock_quantity = (p.stock_quantity - q) - sumLines lines₂ p.id := h5
      refine ⟨h1, h2, h3, h4, ?_⟩
      rw [hSL, if_pos hcase.symm, h5']
      omega
    · obtain ⟨h1, h2, h3, h4, h5⟩ := hpp.2 hcase
      refine ⟨h1, h2, h3, h4, ?_⟩
      rw [hSL, if_neg (fun hh => hcase hh.symm), h5]
      omega

theorem processItems_ok_lines {its : List ItemReq} {ps ps' : List Product} {tot : ℚ}
    {ls : List ItemLine} (h : processItems ps its = .ok (ps', tot, ls)) :
    List.Forall₂ (fun (it : ItemReq) (l : ItemLine) => it.product_id = some l.product_id ∧
      it.quantity = some l.quantity ∧ l.product_id ≠ 0 ∧ 0 < l.quantity) its ls ∧
    tot = (ls.map ItemLine.subtotal).sum ∧
    (∀ l ∈ ls, l.subtotal = l.price * (l.quantity : ℚ)) ∧
    (∀ l ∈ ls, ∃ p ∈ ps, p.id = l.product_id ∧ l.price = p.price * (1 - p.discount / 100)) := by
  induction its generalizing ps tot ls with
  | nil =>
    simp only [processItems, Except.ok.injEq, Prod.mk.injEq] at h
    obtain ⟨rfl, rfl, rfl⟩ := h
    exact ⟨.nil, by simp, by simp, by simp⟩
  | cons it rest ih =>
    obtain ⟨pid, q, p₀, hpid, hq, hg, hf, hs, ps₂, tot₂, lines₂, hrec, hout⟩ :=
      processItems_cons_ok h
    obtain ⟨rfl, rfl, rfl⟩ : ps' = ps₂ ∧ tot = _ ∧ ls = _ := by
      rw [Prod.mk.injEq, Prod.mk.injEq] at hout
      exact ⟨hout.1, hout.2.1, hout.2.2⟩
    obtain ⟨ihf, ihtot, ihsub, ihprice⟩ := ih hrec
    push_neg at hg
    refine ⟨.cons ⟨hpid, hq, hg.1, hg.2⟩ ihf, by simp [ihtot], ?_, ?_⟩
    · intro l hl
      rcases List.mem_cons.mp hl with rfl | hl'
      · rfl
      · exact ihsub l hl'
    · intro l hl
      rcases List.mem_cons.mp hl with rfl | hl'
      · exact ⟨p₀, List.mem_of_find?_eq_some hf, by simpa using List.find?_some hf, rfl⟩
      · obtain ⟨p₂, hp₂, hidp₂, hprice₂⟩ := ihprice l hl'
        obtain ⟨p₁, hp₁, hfp₁⟩ := List.mem_map.mp hp₂
        refine ⟨p₁, hp₁, ?_, ?_⟩
        · rw [← hidp₂, ← hfp₁]
          by_cases hc : p₁.id = pid <;> simp [hc]
        · rw [hprice₂, ← hfp₁]
          by_cases hc : p₁.id = pid <;> simp [hc]

theorem processItems_ok_le {its : List ItemReq} {ps ps' : List Product} {tot : ℚ}
    {ls : List ItemLine} (hnd : (ps.map Product.id).Nodup)
    (hpos : ∀ p ∈ ps, 0 ≤ p.stock_quantity)
    (h : processItems ps its = .ok (ps', tot, ls)) :
    ∀ p ∈ ps, sumLines ls p.id ≤ p.stock_quantity := by
  induction its generalizing ps tot ls with
  | nil =>
    simp only [processItems, Except.ok.injEq, Prod.mk.injEq] at h
    obtain ⟨rfl, rfl, rfl⟩ := h
    intro p hp
    rw [sumLines_nil]
    exact hpos p hp
  | cons it rest ih =>
    obtain ⟨pid, q, p₀, hpid, hq, hg, hf, hs, ps₂, tot₂, lines₂, hrec, hout⟩ :=
      processItems_cons_ok h
    obtain ⟨rfl, rfl, rfl⟩ : ps' = ps₂ ∧ tot = _ ∧ ls = _ := by
      rw [Prod.mk.injEq, Prod.mk.injEq] at hout
      exact ⟨hout.1, hout.2.1, hout.2.2⟩
    have hp₀mem := List.mem_of_find?_eq_some hf
    have hp₀id : p₀.id = pid := by simpa using List.find?_some hf
    push_neg at hg
    have hpos₂ : ∀ p₂ ∈ applyDecrement ps pid q, 0 ≤ p₂.stock_quantity := by
      intro p₂ hp₂
      obtain ⟨p₁, hp₁, hfp₁⟩ := List.mem_map.mp hp₂
      subst hfp₁
      by_cases hc : p₁.id = pid
      · have heq : p₁ = p₀ := List.inj_on_of_nodup_map hnd hp₁ hp₀mem (by rw [hc, hp₀id])
        rw [if_pos hc]
        show 0 ≤ p₁.stock_quantity - q
        rw [heq]
        omega
      · rw [if_neg hc]
        exact hpos p₁ hp₁
    have ihle := ih (applyDecrement_nodup hnd pid q) hpos₂ hrec
    intro p hp
    have hSL : sumLines (⟨pid, q, p₀.price * (1 - p₀.discount / 100),
        p₀.price * (1 - p₀.discount / 100) * (q : ℚ)⟩ :: lines₂) p.id =
        (if pid = p.id then q else 0) + sumLines lines₂ p.id := by
      rw [sumLines_cons]
    rw [hSL]
    have hmem₂ := mem_applyDecrement hp pid q
    by_cases hc : p.id = pid
    · rw [if_pos hc] at hmem₂
      have hle : sumLines lines₂ p.id ≤ p.stock_quantity - q := ihle _ hmem₂
      rw [if_pos hc.symm]
      omega
    · rw [if_neg hc] at hmem₂
      have hle : sumLines lines₂ p.id ≤ p.stock_quantity := ihle _ hmem₂
      rw [if_neg (fun hh => hc hh.symm)]
      omega

theorem processItems_ok_wf {its : List ItemReq} {ps ps' : List Product} {tot : ℚ}
    {ls : List ItemLine} (h : processItems ps its = .ok (ps', tot, ls)) :
    ∀ it ∈ its, itemWf it ∧ ∀ pid, it.product_id = some pid → ∃ p ∈ ps, p.id = pid := by
  obtain ⟨hforall, _, _, hprice⟩ := processItems_ok_lines h
  intro it hit
  obtain ⟨l, hl, hpl, hql, hl0, hlq⟩ := forall₂_mem_left hforall hit
  refine ⟨⟨l.product_id, l.quantity, hpl, hql, hl0, hlq⟩, ?_⟩
  intro pid hpid
  obtain ⟨p, hp, hpidp, _⟩ := hprice l hl
  rw [hpid] at hpl
  obtain rfl : pid = l.product_id := Option.some.inj hpl
  exact ⟨p, hp, hpidp⟩

theorem processItems_error_of_short {its : List ItemReq} {ps : List Product}
    (hnd : (ps.map Product.id).Nodup) {it : ItemReq} (hit : it ∈ its)
    {pid : Nat} {q : Int} (hpid : it.product_id = some pid) (hq : it.quantity = some q)
    {p : Product} (hp : p ∈ ps) (hid : p.id = pid) (hshort : p.stock_quantity < q) :
    ∃ e, processItems ps its = .error e := by
  induction its generalizing ps p with
  | nil => cases hit
  | cons hd rest ih =>
    rcases List.mem_cons.mp hit with rfl | hit'
    · by_cases hg : pid = 0 ∨ q ≤ 0
      · exact ⟨.invalidItem, by simp [processItems, hpid, hq, hg]⟩
      · have hf := find_id_eq_of_nodup hnd hp hid
        exact ⟨.insufficientStock p.name p.stock_quantity q,
          by simp [processItems, hpid, hq, hg, hf, hshort]⟩
    · cases hpd : hd.product_id with
      | none => exact ⟨.invalidItem, by simp [processItems, hpd]⟩
      | some pid' =>
        cases hqd : hd.quantity with
        | none => exact ⟨.invalidItem, by simp [processItems, hpd, hqd]⟩
        | some q' =>
          by_cases hg : pid' = 0 ∨ q' ≤ 0
          · exact ⟨.invalidItem, by simp [processItems, hpd, hqd, hg]⟩
          · cases hf : ps.find? (fun x => x.id == pid') with
            | none => exact ⟨.productMissing pid', by simp [processItems, hpd, hqd, hg, hf]⟩
            | some p₀ =>
              by_cases hs : p₀.stock_quantity < q'
              · exact ⟨.insufficientStock p₀.name p₀.stock_quantity q',
                  by simp [processItems, hpd, hqd, hg, hf, hs]⟩
              · push_neg at hg
                have hmem₂ := mem_applyDecrement hp pid' q'
                by_cases hc : p.id = pid'
                · rw [if_pos hc] at hmem₂
                  obtain ⟨e, he⟩ := ih (applyDecrement_nodup hnd pid' q') hit' hmem₂
                    (show Product.id { p with stock_quantity := p.stock_quantity - q' } = pid
                      from hid) (by show p.stock_quantity - q' < q; omega)
                  exact ⟨e, by simp [processItems, hpd, hqd, hf, hs, he]; omega⟩
                · rw [if_neg hc] at hmem₂
                  obtain ⟨e, he⟩ := ih (applyDecrement_nodup hnd pid' q') hit' hmem₂ hid hshort
                  exact ⟨e, by simp [processItems, hpd, hqd, hf, hs, he]; omega⟩

theorem processItems_error_kind {its : List ItemReq} {ps : List Product} {e : OrderErr}
    (hwf : ∀ it ∈ its, itemWf it)
    (hex : ∀ it ∈ its, ∀ pid, it.product_id = some pid → ∃ p ∈ ps, p.id = pid)
    (he : processItems ps its = .error e) :
    ∃ n a r, e = .insufficientStock n a r := by
  induction its generalizing ps with
  | nil => simp [processItems] at he
  | cons hd rest ih =>
    obtain ⟨pid, q, hpd, hqd, hpid0, hqpos⟩ := hwf hd (List.mem_cons_self ..)
    obtain ⟨p, hp, hidp⟩ := hex hd (List.mem_cons_self ..) pid hpd
    obtain ⟨p₀, hf⟩ : ∃ b, ps.find? (fun x => x.id == pid) = some b :=
      Option.isSome_iff_exists.mp (List.find?_isSome.mpr ⟨p, hp, by simp [hidp]⟩)
    have hg : ¬(pid = 0 ∨ q ≤ 0) := by omega
    by_cases hs : p₀.stock_quantity < q
    · refine ⟨p₀.name, p₀.stock_quantity, q, ?_⟩
      have := by simpa [processItems, hpd, hqd, hg, hf, hs] using he
      exact this.symm
    · cases hrec : processItems (applyDecrement ps pid q) rest with
      | ok o =>
        obtain ⟨ps₂, tot₂, lines₂⟩ := o
        simp [processItems, hpd, hqd, hg, hf, hs, hrec] at he
      | error e₂ =>
        have he₂ : e₂ = e := by
          simpa [processItems, hpd, hqd, hg, hf, hs, hrec] using he
        subst he₂
        refine ih (fun x hx => hwf x (List.mem_cons_of_mem _ hx)) ?_ hrec
        intro x hx pidx hpidx
        obtain ⟨px, hpx, hpidpx⟩ := hex x (List.mem_cons_of_mem _ hx) pidx hpidx
        refine ⟨if px.id = pid then { px with stock_quantity := px.stock_quantity - q } else px,
          mem_applyDecrement hpx pid q, ?_⟩
        by_cases hcx : px.id = pid
        · rw [if_pos hcx]
          show px.id = pidx
          exact hpidpx
        · rw [if_neg hcx]
          exact hpidpx

theorem addr_find_none_iff (db : DB) (aid uid : Nat) :
    ((db.addresses.find? fun a => a.id == aid && a.user_id == uid) = none) ↔
      ¬ ∃ a ∈ db.addresses, a.id = aid ∧ a.user_id = uid := by
  rw [List.find?_eq_none]
  constructor
  · rintro h ⟨a, ha, h1, h2⟩
    exact h a ha (by simp [h1, h2])
  · intro h a ha hb
    exact h ⟨a, ha, by simpa using hb⟩

theorem createOrder_validation {db : DB} {uid : Nat} {aOpt : Option Nat}
    {itsOpt : Option (List ItemReq)} {nid : Nat}
    (h : aOpt = none ∨ aOpt = some 0 ∨ itsOpt = none ∨ itsOpt = some []) :
    createOrder db uid aOpt itsOpt nid = (db, .validationErr) := by
  rcases h with rfl | rfl | rfl | rfl
  · simp [createOrder]
  · cases itsOpt <;> simp [createOrder]
  · cases aOpt <;> simp [createOrder]
  · cases aOpt with
    | none => simp [createOrder]
    | some aid => simp [createOrder]

theorem createOrder_addressMissing {db : DB} {uid aid : Nat} {its : List ItemReq} {nid : Nat}
    (ha : aid ≠ 0) (hi : its ≠ [])
    (hno : ¬ ∃ a ∈ db.addresses, a.id = aid ∧ a.user_id = uid) :
    createOrder db uid (some aid) (some its) nid = (db, .addressMissing) := by
  have hfind := (addr_find_none_iff db aid uid).mpr hno
  simp [createOrder, ha, hi, hfind]

theorem createOrder_of_error {db : DB} {uid aid : Nat} {its : List ItemReq} {nid : Nat}
    {e : OrderErr} (ha : aid ≠ 0) (hi : its ≠ [])
    (hyes : ∃ a ∈ db.addresses, a.id = aid ∧ a.user_id = uid)
    (he : processItems db.products its = .error e) :
    createOrder db uid (some aid) (some its) nid = (db, .serverErr e) := by
  obtain ⟨a, hmem, h1, h2⟩ := hyes
  have hfind : ((db.addresses.find? fun x => x.id == aid && x.user_id == uid)).isSome :=
    List.find?_isSome.mpr ⟨a, hmem, by simp [h1, h2]⟩
  obtain ⟨b, hb⟩ := Option.isSome_iff_exists.mp hfind
  simp [createOrder, ha, hi, hb, he]

theorem createOrder_created_inv {db db' : DB} {uid : Nat} {aOpt : Option Nat}
    {itsOpt : Option (List ItemReq)} {nid : Nat} {ord : Order} {ois : List OrderItem}
    (h : createOrder db uid aOpt itsOpt nid = (db', .created ord ois)) :
    ∃ aid its ps' tot lines, aOpt = some aid ∧ itsOpt = some its ∧
      processItems db.products its = .ok (ps', tot, lines) ∧
      ord = ⟨nid, uid, aid, tot, "pending", "unpaid", 0⟩ ∧
      ois = lines.map (fun l => OrderItem.mk nid l.product_id l.quantity l.price l.subtotal) ∧
      db' = { db with
                products := ps'
                orders := db.orders ++ [ord]
                order_items := db.order_items ++ ois } := by
  cases aOpt with
  | none => simp [createOrder] at h
  | some aid =>
    cases itsOpt with
    | none => simp [createOrder] at h
    | some its =>
      by_cases ha0 : aid = 0
      · subst ha0
        rw [createOrder_validation (Or.inr (Or.inl rfl))] at h
        simp at h
      · by_cases hie : its = []
        · subst hie
          rw [createOrder_validation (Or.inr (Or.inr (Or.inr rfl)))] at h
          simp at h
        · cases hfo : db.addresses.find? fun x => x.id == aid && x.user_id == uid with
          | none =>
            have hno := (addr_find_none_iff db aid uid).mp hfo
            rw [createOrder_addressMissing ha0 hie hno] at h
            simp at h
          | some b =>
            have hyes : ∃ a ∈ db.addresses, a.id = aid ∧ a.user_id = uid :=
              ⟨b, List.mem_of_find?_eq_some hfo, by simpa using List.find?_some hfo⟩
            cases hpi : processItems db.products its with
            | error e =>
              rw [createOrder_of_error ha0 hie hyes hpi] at h
              simp at h
            | ok o =>
              obtain ⟨ps', tot, lines⟩ := o
              have hok : createOrder db uid (some aid) (some its) nid =
                  ({ db with
                      products := ps'
                      orders := db.orders ++ [⟨nid, uid, aid, tot, "pending", "unpaid", 0⟩]
                      order_items := db.order_items ++ lines.map (fun l =>
                        OrderItem.mk nid l.product_id l.quantity l.price l.subtotal) },
                    .created ⟨nid, uid, aid, tot, "pending", "unpaid", 0⟩ (lines.map (fun l =>
                      OrderItem.mk nid l.product_id l.quantity l.price l.subtotal))) := by
                simp [createOrder, ha0, hie, hfo, hpi]
              rw [hok, Prod.mk.injEq] at h
              obtain ⟨hdb, hres⟩ := h
              cases hres
              exact ⟨aid, its, ps', tot, lines, rfl, rfl, hpi, rfl, rfl, hdb.symm⟩

/-- C4: an order-placement request (well-formed body) whose address id does not
reference an address row owned by the requesting customer — whether the id is
absent from the table or owned by a different customer — fails with the 404
not-found outcome and returns the database unchanged. -/
theorem C4_address_ownership (db : DB) (uid aid : Nat) (its : List ItemReq) (nid : Nat)
    (ha : aid ≠ 0) (hi : its ≠ [])
    (hno : ¬ ∃ a ∈ db.addresses, a.id = aid ∧ a.user_id = uid) :
    createOrder db uid (some aid) (some its) nid = (db, .addressMissing) ∧
      createStatus (createOrder db uid (some aid) (some its) nid).2 = 404 := by
  refine ⟨createOrder_addressMissing ha hi hno, ?_⟩
  rw [createOrder_addressMissing ha hi hno]
  rfl

/-- Witness for C4 at a concrete input: user 2 does not own address 1 of
`dbA`. -/
theorem C4_witness :
    createOrder dbA 2 (some 1) (some [⟨some 1, some 1⟩]) 1 = (dbA, .addressMissing) :=
  (C4_address_ownership dbA 2 1 [⟨some 1, some 1⟩] 1 (by decide) (by decide)
    (by decide)).1

/-- C1: a request whose items list contains an entry asking more of some
product than its stock allows fails — the state is returned unchanged (full
rollback: no stock change, no order row, no order-item rows) and the outcome is
never `created` — and when the rest of the request is well formed the failure
is the insufficient-stock error. -/
theorem C1_insufficient_stock_rollback (db : DB) (uid : Nat) (aOpt : Option Nat)
    (its : List ItemReq) (nid : Nat) (it : ItemReq) (pid : Nat) (q : Int) (p : Product)
    (hnd : (db.products.map Product.id).Nodup)
    (hit : it ∈ its) (hpid : it.product_id = some pid) (hq : it.quantity = some q)
    (hp : p ∈ db.products) (hid : p.id = pid) (hshort : p.stock_quantity < q) :
    (createOrder db uid aOpt (some its) nid).1 = db ∧
    (∀ ord ois, (createOrder db uid aOpt (some its) nid).2 ≠ .created ord ois) ∧
    (∀ aid, aOpt = some aid → aid ≠ 0 →
      (∃ a ∈ db.addresses, a.id = aid ∧ a.user_id = uid) →
      (∀ it' ∈ its, itemWf it') →
      (∀ it' ∈ its, ∀ pid', it'.product_id = some pid' → ∃ p' ∈ db.products, p'.id = pid') →
      ∃ n avail req, (createOrder db uid aOpt (some its) nid).2 =
        .serverErr (.insufficientStock n avail req)) := by
  obtain ⟨e, he⟩ := processItems_error_of_short hnd hit hpid hq hp hid hshort
  have hie : its ≠ [] := by
    intro hh
    rw [hh] at hit
    cases hit
  have hmain : createOrder db uid aOpt (some its) nid = (db, .validationErr) ∨
      createOrder db uid aOpt (some its) nid = (db, .addressMissing) ∨
      createOrder db uid aOpt (some its) nid = (db, .serverErr e) := by
    cases aOpt with
    | none => exact Or.inl (createOrder_validation (Or.inl rfl))
    | some aid =>
      by_cases ha0 : aid = 0
      · subst ha0
        exact Or.inl (createOrder_validation (Or.inr (Or.inl rfl)))
      · by_cases haddr : ∃ a ∈ db.addresses, a.id = aid ∧ a.user_id = uid
        · exact Or.inr (Or.inr (createOrder_of_error ha0 hie haddr he))
        · exact Or.inr (Or.inl (createOrder_addressMissing ha0 hie haddr))
  refine ⟨?_, ?_, ?_⟩
  · rcases hmain with hm | hm | hm <;> rw [hm]
  · intro ord ois
    rcases hmain with hm | hm | hm <;> rw [hm] <;> simp
  · rintro aid rfl ha0 haddr hwf hex
    rw [createOrder_of_error ha0 hie haddr he]
    obtain ⟨n, a, r, rfl⟩ := processItems_error_kind hwf hex he
    exact ⟨n, a, r, rfl⟩

/-- Witness for C1 at a concrete input: ordering 9 units of the product of
`dbA` (stock 5) rolls back and reports insufficient stock. -/
theorem C1_witness :
    (createOrder dbA 1 (some 1) (some [⟨some 1, some 9⟩]) 1).1 = dbA ∧
    (∃ n avail req, (createOrder dbA 1 (some 1) (some [⟨some 1, some 9⟩]) 1).2 =
      .serverErr (.insufficientStock n avail req)) := by
  have h := C1_insufficient_stock_rollback dbA 1 (some 1) [⟨some 1, some 9⟩] 1
    ⟨some 1, some 9⟩ 1 9 ⟨1, "P", 100, 10, 5⟩ (by decide) (by decide) rfl rfl
    (by decide) rfl (by decide)
  refine ⟨h.1, h.2.2 1 rfl (by decide) ⟨⟨1, 1, "a", "p", "c", true⟩, by decide, rfl, rfl⟩ ?_ ?_⟩
  · intro it' hit'
    have : it' = ⟨some 1, some 9⟩ := by
      rcases List.mem_cons.mp hit' with rfl | hh
      · rfl
      · cases hh
    rw [this]
    exact ⟨1, 9, rfl, rfl, by decide, by decide⟩
  · intro it' hit' pid' hpid'
    have heq : it' = ⟨some 1, some 9⟩ := by
      rcases List.mem_cons.mp hit' with rfl | hh
      · rfl
      · cases hh
    rw [heq] at hpid'
    obtain rfl : pid' = 1 := by
      have := Option.some.inj hpid'.symm
      omega
    exact ⟨⟨1, "P", 100, 10, 5⟩, by decide, rfl⟩

/-- C2: on every successful order placement the stored total is the sum of the
item subtotals, each subtotal is the snapshotted unit price times the quantity,
and each unit price is price times (1 - discount/100) of the product row as it
was when the order was created; in the concrete scenario (stock 5, price 100,
discount 10, quantity 2) the unit price is 90, the subtotal and total are 180,
and the stock drops to 3. -/
theorem C2_order_pricing :
    (∀ (db db' : DB) (uid : Nat) (aOpt : Option Nat) (itsOpt : Option (List ItemReq))
      (nid : Nat) (ord : Order) (ois : List OrderItem),
      createOrder db uid aOpt itsOpt nid = (db', .created ord ois) →
      ord.total_price = (ois.map OrderItem.subtotal).sum ∧
      (∀ oi ∈ ois, oi.subtotal = oi.price * (oi.quantity : ℚ)) ∧
      (∀ oi ∈ ois, ∃ p ∈ db.products, p.id = oi.product_id ∧
        oi.price = p.price * (1 - p.discount / 100)) ∧
      ord ∈ db'.orders ∧ (∀ oi ∈ ois, oi ∈ db'.order_items)) ∧
    createOrder dbA 1 (some 1) (some [⟨some 1, some 2⟩]) 1 =
      ({ products := [⟨1, "P", 100, 10, 3⟩]
         addresses := dbA.addresses
         orders := [⟨1, 1, 1, 180, "pending", "unpaid", 0⟩]
         order_items := [⟨1, 1, 2, 90, 180⟩] },
       .created ⟨1, 1, 1, 180, "pending", "unpaid", 0⟩ [⟨1, 1, 2, 90, 180⟩]) := by
  constructor
  · intro db db' uid aOpt itsOpt nid ord ois h
    obtain ⟨aid, its, ps', tot, lines, rfl, rfl, hpi, hord, hois, hdb'⟩ :=
      createOrder_created_inv h
    obtain ⟨_, htot, hsub, hprice⟩ := processItems_ok_lines hpi
    refine ⟨?_, ?_, ?_, ?_, ?_⟩
    · rw [hord, hois]
      show tot = _
      rw [htot, List.map_map]
      rfl
    · intro oi hoi
      rw [hois] at hoi
      obtain ⟨l, hl, rfl⟩ := List.mem_map.mp hoi
      exact hsub l hl
    · intro oi hoi
      rw [hois] at hoi
      obtain ⟨l, hl, rfl⟩ := List.mem_map.mp hoi
      exact hprice l hl
    · rw [hdb']
      exact List.mem_append_right _ (List.mem_singleton.mpr rfl)
    · intro oi hoi
      rw [hdb']
      exact List.mem_append_right _ hoi
  · simp [createOrder, processItems, applyDecrement, dbA, List.find?]
    norm_num

/-- Witness for C2 at the concrete scenario order of `dbA`. -/
theorem C2_witness :
    (Order.mk 1 1 1 180 "pending" "unpaid" 0).total_price =
      ([OrderItem.mk 1 1 2 90 180].map OrderItem.subtotal).sum := by
  have h := (C2_order_pricing.1 dbA _ 1 (some 1) (some [⟨some 1, some 2⟩]) 1
    ⟨1, 1, 1, 180, "pending", "unpaid", 0⟩ [⟨1, 1, 2, 90, 180⟩] C2_order_pricing.2)
  exact h.1

theorem combinedQty_cons (it : ItemReq) (its : List ItemReq) (pid : Nat) :
    combinedQty (it :: its) pid =
      (if it.product_id = some pid then it.quantity.getD 0 else 0) + combinedQty its pid := by
  simp [combinedQty]

theorem combinedQty_eq_sumLines {its : List ItemReq} {ls : List ItemLine}
    (h : List.Forall₂ (fun (it : ItemReq) (l : ItemLine) => it.product_id = some l.product_id ∧
      it.quantity = some l.quantity ∧ l.product_id ≠ 0 ∧ 0 < l.quantity) its ls) (pid : Nat) :
    combinedQty its pid = sumLines ls pid := by
  induction h with
  | nil => rfl
  | @cons it l its' ls' hr hrest ih =>
    obtain ⟨h1, h2, _, _⟩ := hr
    rw [combinedQty_cons, sumLines_cons, ih, h1, h2]
    by_cases hc : l.product_id = pid
    · rw [if_pos (by rw [hc]), if_pos hc]
      rfl
    · rw [if_neg (by simpa using hc), if_neg hc]

theorem createOrder_fst_eq (db : DB) (uid : Nat) (aOpt : Option Nat)
    (itsOpt : Option (List ItemReq)) (nid : Nat) :
    (createOrder db uid aOpt itsOpt nid).1 = db ∨
    ∃ db' ord ois, createOrder db uid aOpt itsOpt nid = (db', .created ord ois) := by
  cases aOpt with
  | none => exact Or.inl (by rw [createOrder_validation (Or.inl rfl)])
  | some aid =>
    cases itsOpt with
    | none => exact Or.inl (by rw [createOrder_validation (Or.inr (Or.inr (Or.inl rfl)))])
    | some its =>
      by_cases ha0 : aid = 0
      · subst ha0
        exact Or.inl (by rw [createOrder_validation (Or.inr (Or.inl rfl))])
      · by_cases hie : its = []
        · subst hie
          exact Or.inl (by rw [createOrder_validation (Or.inr (Or.inr (Or.inr rfl)))])
        · by_cases haddr : ∃ a ∈ db.addresses, a.id = aid ∧ a.user_id = uid
          · cases hpi : processItems db.products its with
            | error e =>
              exact Or.inl (by rw [createOrder_of_error ha0 hie haddr hpi])
            | ok o =>
              obtain ⟨ps', tot, lines⟩ := o
              obtain ⟨a, hmem, h1, h2⟩ := haddr
              have hfind : ((db.addresses.find? fun x => x.id == aid && x.user_id == uid)).isSome :=
                List.find?_isSome.mpr ⟨a, hmem, by simp [h1, h2]⟩
              obtain ⟨b, hb⟩ := Option.isSome_iff_exists.mp hfind
              refine Or.inr ⟨{ db with
                  products := ps'
                  orders := db.orders ++ [⟨nid, uid, aid, tot, "pending", "unpaid", 0⟩]
                  order_items := db.order_items ++ lines.map (fun l =>
                    OrderItem.mk nid l.product_id l.quantity l.price l.subtotal) },
                ⟨nid, uid, aid, tot, "pending", "unpaid", 0⟩,
                lines.map (fun l =>
                  OrderItem.mk nid l.product_id l.quantity l.price l.subtotal), ?_⟩
              simp [createOrder, ha0, hie, hb, hpi]
          · exact Or.inl (by rw [createOrder_addressMissing ha0 hie haddr])

theorem updateOrderStatus_products (db : DB) (id : Nat) (s ps : Option String) (now : Nat) :
    (updateOrderStatus db id s ps now).1.products = db.products := by
  unfold updateOrderStatus
  split
  · rfl
  · split
    · rfl
    · split
      · rfl
      · split
        · rfl
        · rfl

theorem createAddress_products (db : DB) (uid : Nat) (a p c : String) (d : Bool) (nid : Nat) :
    (createAddress db uid a p c d nid).1.products = db.products := by
  unfold createAddress
  split
  · rfl
  · rfl

theorem updateAddress_products (db : DB) (uid id : Nat) (a p c : Option String)
    (d : Option Bool) : (updateAddress db uid id a p c d).1.products = db.products := by
  unfold updateAddress
  split
  · rfl
  · split <;> split <;> rfl

theorem deleteAddress_products (db : DB) (uid id : Nat) :
    (deleteAddress db uid id).1.products = db.products := by
  unfold deleteAddress
  split
  · rfl
  · rfl

/-- C5: every modelled operation preserves non-negativity of every product's
stock: order placement decrements only after checking the requested quantity
against current stock, and no other operation touches the products table. -/
theorem C5_stock_never_negative :
    (∀ (db : DB) (uid : Nat) (aOpt : Option Nat) (itsOpt : Option (List ItemReq)) (nid : Nat),
      (db.products.map Product.id).Nodup →
      (∀ p ∈ db.products, 0 ≤ p.stock_quantity) →
      ∀ p' ∈ (createOrder db uid aOpt itsOpt nid).1.products, 0 ≤ p'.stock_quantity) ∧
    (∀ (db : DB) (id : Nat) (s ps : Option String) (now : Nat),
      (∀ p ∈ db.products, 0 ≤ p.stock_quantity) →
      ∀ p' ∈ (updateOrderStatus db id s ps now).1.products, 0 ≤ p'.stock_quantity) ∧
    (∀ (db : DB) (uid : Nat) (a pn c : String) (d : Bool) (nid : Nat),
      (∀ p ∈ db.products, 0 ≤ p.stock_quantity) →
      ∀ p' ∈ (createAddress db uid a pn c d nid).1.products, 0 ≤ p'.stock_quantity) ∧
    (∀ (db : DB) (uid id : Nat) (a pn c : Option String) (d : Option Bool),
      (∀ p ∈ db.products, 0 ≤ p.stock_quantity) →
      ∀ p' ∈ (updateAddress db uid id a pn c d).1.products, 0 ≤ p'.stock_quantity) ∧
    (∀ (db : DB) (uid id : Nat),
      (∀ p ∈ db.products, 0 ≤ p.stock_quantity) →
      ∀ p' ∈ (deleteAddress db uid id).1.products, 0 ≤ p'.stock_quantity) := by
  refine ⟨?_, ?_, ?_, ?_, ?_⟩
  · intro db uid aOpt itsOpt nid hnd hpos p' hp'
    rcases createOrder_fst_eq db uid aOpt itsOpt nid with hfst | ⟨db', ord, ois, hcr⟩
    · rw [hfst] at hp'
      exact hpos p' hp'
    · obtain ⟨aid, its, ps', tot, lines, _, _, hpi, _, _, hdb'⟩ := createOrder_created_inv hcr
      rw [hcr] at hp'
      rw [hdb'] at hp'
      have hle := processItems_ok_le hnd hpos hpi
      obtain ⟨p, hp, hrel⟩ := forall₂_mem_right (processItems_ok_forall₂ hpi) hp'
      obtain ⟨_, _, _, _, h5⟩ := hrel
      rw [h5]
      have := hle p hp
      omega
  · intro db id s ps now hpos p' hp'
    rw [updateOrderStatus_products] at hp'
    exact hpos p' hp'
  · intro db uid a pn c d nid hpos p' hp'
    rw [createAddress_products] at hp'
    exact hpos p' hp'
  · intro db uid id a pn c d hpos p' hp'
    rw [updateAddress_products] at hp'
    exact hpos p' hp'
  · intro db uid id hpos p' hp'
    rw [deleteAddress_products] at hp'
    exact hpos p' hp'

/-- Witness for C5 at a concrete input: after the scenario order on `dbA`
every stock is still non-negative. -/
theorem C5_witness :
    ∀ p' ∈ (createOrder dbA 1 (some 1) (some [⟨some 1, some 2⟩]) 1).1.products,
      0 ≤ p'.stock_quantity :=
  C5_stock_never_negative.1 dbA 1 (some 1) (some [⟨some 1, some 2⟩]) 1 (by decide)
    (by decide)

/-- C8: within one order the stock checks run against the state already
decremented by earlier items of the same request, so a request naming the same
product several times succeeds only when the combined quantity fits the initial
stock, and on success each product's stock drops by exactly its combined
requested quantity; concretely, two entries of 2 units against stock 3 fail
with available quantity 1 reported by the second check. -/
theorem C8_duplicate_product_items :
    (∀ (db db' : DB) (uid : Nat) (aOpt : Option Nat) (its : List ItemReq) (nid : Nat)
      (ord : Order) (ois : List OrderItem),
      (db.products.map Product.id).Nodup →
      (∀ p ∈ db.products, 0 ≤ p.stock_quantity) →
      createOrder db uid aOpt (some its) nid = (db', .created ord ois) →
      ∀ p ∈ db.products, combinedQty its p.id ≤ p.stock_quantity ∧
        ∃ p' ∈ db'.products, p'.id = p.id ∧
          p'.stock_quantity = p.stock_quantity - combinedQty its p.id) ∧
    createOrder dbB 1 (some 1) (some [⟨some 1, some 2⟩, ⟨some 1, some 2⟩]) 1 =
      (dbB, .serverErr (.insufficientStock "P" 1 2)) := by
  constructor
  · intro db db' uid aOpt its nid ord ois hnd hpos hcr p hp
    obtain ⟨aid, its', ps', tot, lines, _, hits, hpi, _, _, hdb'⟩ := createOrder_created_inv hcr
    obtain rfl : its = its' := Option.some.inj hits
    obtain ⟨hforall, _, _, _⟩ := processItems_ok_lines hpi
    have hcq := combinedQty_eq_sumLines hforall p.id
    have hle := processItems_ok_le hnd hpos hpi p hp
    refine ⟨by rw [hcq]; exact hle, ?_⟩
    obtain ⟨p', hp', hrel⟩ := forall₂_mem_left (processItems_ok_forall₂ hpi) hp
    obtain ⟨h1, _, _, _, h5⟩ := hrel
    refine ⟨p', ?_, h1, by rw [hcq, h5]⟩
    rw [hdb']
    exact hp'
  · simp [createOrder, processItems, applyDecrement, dbB, List.find?]

/-- Witness for C8 at a concrete input: the successful scenario order on `dbA`
asks 2 units combined and leaves stock 5 - 2 = 3. -/
theorem C8_witness :
    ∀ p ∈ dbA.products, combinedQty [⟨some 1, some 2⟩] p.id ≤ p.stock_quantity ∧
      ∃ p' ∈ (createOrder dbA 1 (some 1) (some [⟨some 1, some 2⟩]) 1).1.products,
        p'.id = p.id ∧
        p'.stock_quantity = p.stock_quantity - combinedQty [⟨some 1, some 2⟩] p.id := by
  intro p hp
  have hconc : createOrder dbA 1 (some 1) (some [⟨some 1, some 2⟩]) 1 =
      ({ products := [⟨1, "P", 100, 10, 3⟩]
         addresses := dbA.addresses
         orders := [⟨1, 1, 1, 180, "pending", "unpaid", 0⟩]
         order_items := [⟨1, 1, 2, 90, 180⟩] },
       .created ⟨1, 1, 1, 180, "pending", "unpaid", 0⟩ [⟨1, 1, 2, 90, 180⟩]) := by
    simp [createOrder, processItems, applyDecrement, dbA, List.find?]
    norm_num
  have h := C8_duplicate_product_items.1 dbA _ 1 (some 1) [⟨some 1, some 2⟩] 1
    ⟨1, 1, 1, 180, "pending", "unpaid", 0⟩ [⟨1, 1, 2, 90, 180⟩] (by decide) (by decide)
    hconc p hp
  rwa [show (createOrder dbA 1 (some 1) (some [⟨some 1, some 2⟩]) 1).1 =
    ({ products := [⟨1, "P", 100, 10, 3⟩]
       addresses := dbA.addresses
       orders := [⟨1, 1, 1, 180, "pending", "unpaid", 0⟩]
       order_items := [⟨1, 1, 2, 90, 180⟩] } : DB) from by rw [hconc]]

theorem bool_ne_true {b : Bool} (h : b = false) : ¬(b = true) := fun hc => by
  rw [hc] at h
  cases h

theorem order_find_none_iff (db : DB) (id : Nat) :
    ((db.orders.find? fun o => o.id == id) = none) ↔ ¬ ∃ o ∈ db.orders, o.id = id := by
  rw [List.find?_eq_none]
  constructor
  · rintro h ⟨o, ho, h1⟩
    exact h o ho (by simp [h1])
  · intro h o ho hb
    exact h ⟨o, ho, by simpa using hb⟩

theorem statusCheck_false_of_valid {s : Option String} {vs : List String}
    (h : ∀ x, s = some x → x ∈ vs) :
    (truthyStr s && !(vs.contains (s.getD ""))) = false := by
  cases s with
  | none => rfl
  | some v => simp [truthyStr, h v rfl]

theorem statusCheck_false_of_empty {vs : List String} :
    (truthyStr (some "") && !(vs.contains ((some "").getD ""))) = false := rfl

theorem uos_invalidStatus {db : DB} {id : Nat} {s ps : Option String} {now : Nat}
    (h : (truthyStr s && !(validStatuses.contains (s.getD ""))) = true) :
    updateOrderStatus db id s ps now = (db, .invalidStatus) := by
  unfold updateOrderStatus
  rw [if_pos h]

theorem uos_invalidPayment {db : DB} {id : Nat} {s ps : Option String} {now : Nat}
    (h1 : (truthyStr s && !(validStatuses.contains (s.getD ""))) = false)
    (h2 : (truthyStr ps && !(validPaymentStatuses.contains (ps.getD ""))) = true) :
    updateOrderStatus db id s ps now = (db, .invalidPayment) := by
  unfold updateOrderStatus
  rw [if_neg (bool_ne_true h1), if_pos h2]

theorem uos_missing {db : DB} {id : Nat} {s ps : Option String} {now : Nat}
    (h1 : (truthyStr s && !(validStatuses.contains (s.getD ""))) = false)
    (h2 : (truthyStr ps && !(validPaymentStatuses.contains (ps.getD ""))) = false)
    (hfo : (db.orders.find? fun o => o.id == id) = none) :
    updateOrderStatus db id s ps now = (db, .orderMissing) := by
  unfold updateOrderStatus
  rw [if_neg (bool_ne_true h1), if_neg (bool_ne_true h2), hfo]

theorem uos_noFields {db : DB} {id : Nat} {now : Nat} {o₀ : Order}
    (hfo : (db.orders.find? fun o => o.id == id) = some o₀) :
    updateOrderStatus db id none none now = (db, .noFields) := by
  unfold updateOrderStatus
  rw [if_neg (bool_ne_true (show (truthyStr none &&
        !(validStatuses.contains ((none : Option String).getD ""))) = false from rfl)),
    if_neg (bool_ne_true (show (truthyStr none &&
        !(validPaymentStatuses.contains ((none : Option String).getD ""))) = false from rfl)),
    hfo]
  rfl

theorem uos_updated {db : DB} {id : Nat} {s ps : Option String} {now : Nat} {o₀ : Order}
    (h1 : (truthyStr s && !(validStatuses.contains (s.getD ""))) = false)
    (h2 : (truthyStr ps && !(validPaymentStatuses.contains (ps.getD ""))) = false)
    (hfo : (db.orders.find? fun o => o.id == id) = some o₀)
    (hne : (s.isNone && ps.isNone) = false) :
    updateOrderStatus db id s ps now =
      ({ db with orders := db.orders.map fun o =>
          if o.id = id then applyStatusUpdate o s ps now else o },
        .updated (applyStatusUpdate o₀ s ps now)) := by
  unfold updateOrderStatus
  rw [if_neg (bool_ne_true h1), if_neg (bool_ne_true h2), hfo]
  show (if (s.isNone && ps.isNone) = true then _ else _) = _
  rw [if_neg (by simp [hne])]

/-- Counterexample to C6 as stated: a request providing neither field on a
nonexistent order id yields the not-found outcome (404), not the
validation error, because the existence check runs before the
at-least-one-field check. -/
theorem C6_counterexample :
    updateOrderStatus db0 1 none none 5 = (db0, .orderMissing) ∧
    statusHttp (updateOrderStatus db0 1 none none 5).2 = 404 ∧
    (updateOrderStatus db0 1 none none 5).2 ≠ .noFields := by
  decide

/-- C6 (amended): with valid provided enum values, an update on an existing
order changes exactly the provided field(s) and `updated_at` of the rows with
the targeted id, leaves every other row and table untouched, and returns 200;
any request on a nonexistent id — with or without provided fields — yields
not-found (404) and changes nothing; a request providing neither field on an
existing order yields the validation error (400) and changes nothing. -/
theorem C6_amended_status_update (db : DB) (id : Nat) (s ps : Option String) (now : Nat)
    (hvs : ∀ x, s = some x → x ∈ validStatuses)
    (hvp : ∀ x, ps = some x → x ∈ validPaymentStatuses) :
    ((∃ o ∈ db.orders, o.id = id) → (s ≠ none ∨ ps ≠ none) →
      (updateOrderStatus db id s ps now).1.products = db.products ∧
      (updateOrderStatus db id s ps now).1.addresses = db.addresses ∧
      (updateOrderStatus db id s ps now).1.order_items = db.order_items ∧
      (updateOrderStatus db id s ps now).1.orders =
        db.orders.map (fun o => if o.id = id then applyStatusUpdate o s ps now else o) ∧
      (∀ o ∈ db.orders, o.id ≠ id → o ∈ (updateOrderStatus db id s ps now).1.orders) ∧
      (∀ o : Order, (applyStatusUpdate o s ps now).id = o.id ∧
        (applyStatusUpdate o s ps now).user_id = o.user_id ∧
        (applyStatusUpdate o s ps now).address_id = o.address_id ∧
        (applyStatusUpdate o s ps now).total_price = o.total_price ∧
        (applyStatusUpdate o s ps now).updated_at = now ∧
        (s = none → (applyStatusUpdate o s ps now).status = o.status) ∧
        (ps = none → (applyStatusUpdate o s ps now).payment_status = o.payment_status)) ∧
      (∃ o', (updateOrderStatus db id s ps now).2 = .updated o' ∧
        statusHttp (updateOrderStatus db id s ps now).2 = 200)) ∧
    ((¬ ∃ o ∈ db.orders, o.id = id) →
      updateOrderStatus db id s ps now = (db, .orderMissing) ∧
      statusHttp .orderMissing = 404) ∧
    ((∃ o ∈ db.orders, o.id = id) → s = none → ps = none →
      updateOrderStatus db id s ps now = (db, .noFields) ∧ statusHttp .noFields = 400) := by
  have h1 := statusCheck_false_of_valid hvs
  have h2 := statusCheck_false_of_valid hvp
  refine ⟨?_, ?_, ?_⟩
  · rintro ⟨o, ho, hoid⟩ hne
    have hfind : ((db.orders.find? fun x => x.id == id)).isSome :=
      List.find?_isSome.mpr ⟨o, ho, by simp [hoid]⟩
    obtain ⟨o₁, hfo⟩ := Option.isSome_iff_exists.mp hfind
    have hneb : (s.isNone && ps.isNone) = false := by
      rcases hne with h | h
      · cases s with
        | none => exact absurd rfl h
        | some v => rfl
      · cases ps with
        | none => exact absurd rfl h
        | some v => simp
    rw [uos_updated h1 h2 hfo hneb]
    refine ⟨rfl, rfl, rfl, rfl, ?_, ?_, ?_⟩
    · intro o' ho' hne'
      have hm : (if o'.id = id then applyStatusUpdate o' s ps now else o') ∈
          db.orders.map (fun o => if o.id = id then applyStatusUpdate o s ps now else o) :=
        List.mem_map_of_mem (fun o => if o.id = id then applyStatusUpdate o s ps now else o) ho'
      rw [if_neg hne'] at hm
      exact hm
    · intro o'
      refine ⟨rfl, rfl, rfl, rfl, rfl, ?_, ?_⟩
      · rintro rfl
        rfl
      · rintro rfl
        rfl
    · exact ⟨applyStatusUpdate o₁ s ps now, rfl, rfl⟩
  · intro hno
    exact ⟨uos_missing h1 h2 ((order_find_none_iff db id).mpr hno), rfl⟩
  · rintro ⟨o, ho, hoid⟩ rfl rfl
    have hfind : ((db.orders.find? fun x => x.id == id)).isSome :=
      List.find?_isSome.mpr ⟨o, ho, by simp [hoid]⟩
    obtain ⟨o₁, hfo⟩ := Option.isSome_iff_exists.mp hfind
    exact ⟨uos_noFields hfo, rfl⟩

/-- Witness for C6 (amended) at a concrete input: a valid status update on the
order of `dbO` succeeds with 200. -/
theorem C6_witness :
    ∃ o', (updateOrderStatus dbO 1 (some "shipped") none 9).2 = .updated o' ∧
      statusHttp (updateOrderStatus dbO 1 (some "shipped") none 9).2 = 200 := by
  have h := C6_amended_status_update dbO 1 (some "shipped") none 9
    (fun x hx => by cases hx; decide) (fun x hx => by cases hx)
  exact (h.1 ⟨⟨1, 1, 1, 0, "pending", "unpaid", 0⟩, by decide, rfl⟩
    (Or.inl (by simp))).2.2.2.2.2.2

/-- Counterexample to C7 as stated: the empty string is outside the status
enum, yet a request carrying it is not rejected with 400 — it bypasses the
truthiness-guarded enum check and is written into the row, answering 200. -/
theorem C7_counterexample :
    updateOrderStatus dbO 1 (some "") none 7 =
      ({ dbO with orders := [⟨1, 1, 1, 0, "", "unpaid", 7⟩] },
        .updated ⟨1, 1, 1, 0, "", "unpaid", 7⟩) ∧
    validStatuses.contains "" = false ∧
    statusHttp (updateOrderStatus dbO 1 (some "") none 7).2 = 200 := by
  decide

/-- C7 (amended): the status-update endpoint validates set membership only for
truthy (non-empty) provided values: a non-empty value outside the enum fails
with 400 whatever the order's current status, a valid enum value is accepted
regardless of the current status, and the empty string bypasses validation and
is stored as the new value. -/
theorem C7_amended_enum_validation (db : DB) (id : Nat) (s ps : Option String) (now : Nat) :
    (∀ x, s = some x → x ∉ validStatuses → x ≠ "" →
      updateOrderStatus db id s ps now = (db, .invalidStatus) ∧
      statusHttp .invalidStatus = 400) ∧
    ((∀ x, s = some x → x ∈ validStatuses) →
      ∀ x, ps = some x → x ∉ validPaymentStatuses → x ≠ "" →
      updateOrderStatus db id s ps now = (db, .invalidPayment) ∧
      statusHttp .invalidPayment = 400) ∧
    ((∀ x, s = some x → x ∈ validStatuses) → (∀ x, ps = some x → x ∈ validPaymentStatuses) →
      (s ≠ none ∨ ps ≠ none) → (∃ o ∈ db.orders, o.id = id) →
      ∃ o', (updateOrderStatus db id s ps now).2 = .updated o' ∧
        statusHttp (updateOrderStatus db id s ps now).2 = 200) ∧
    (s = some "" → (∀ x, ps = some x → x ∈ validPaymentStatuses) →
      (∃ o ∈ db.orders, o.id = id) →
      ∃ o', (updateOrderStatus db id s ps now).2 = .updated o' ∧ o'.status = "") := by
  refine ⟨?_, ?_, ?_, ?_⟩
  · intro x hx hnot hne
    subst hx
    have hcon : validStatuses.contains x = false := by
      cases hcv : validStatuses.contains x
      · rfl
      · exact absurd (by simpa using hcv) hnot
    have hcond : (truthyStr (some x) && !(validStatuses.contains ((some x).getD ""))) = true := by
      have htr : truthyStr (some x) = true := by simp [truthyStr, hne]
      rw [show ((some x).getD "") = x from rfl, htr, hcon]
      rfl
    exact ⟨uos_invalidStatus hcond, rfl⟩
  · intro hvs x hx hnot hne
    subst hx
    have h1 := statusCheck_false_of_valid hvs
    have hcon : validPaymentStatuses.contains x = false := by
      cases hcv : validPaymentStatuses.contains x
      · rfl
      · exact absurd (by simpa using hcv) hnot
    have hcond : (truthyStr (some x) &&
        !(validPaymentStatuses.contains ((some x).getD ""))) = true := by
      have htr : truthyStr (some x) = true := by simp [truthyStr, hne]
      rw [show ((some x).getD "") = x from rfl, htr, hcon]
      rfl
    exact ⟨uos_invalidPayment h1 hcond, rfl⟩
  · rintro hvs hvp hne ⟨o, ho, hoid⟩
    have h1 := statusCheck_false_of_valid hvs
    have h2 := statusCheck_false_of_valid hvp
    have hfind : ((db.orders.find? fun x => x.id == id)).isSome :=
      List.find?_isSome.mpr ⟨o, ho, by simp [hoid]⟩
    obtain ⟨o₁, hfo⟩ := Option.isSome_iff_exists.mp hfind
    have hneb : (s.isNone && ps.isNone) = false := by
      rcases hne with h | h
      · cases s with
        | none => exact absurd rfl h
        | some v => rfl
      · cases ps with
        | none => exact absurd rfl h
        | some v => simp
    rw [uos_updated h1 h2 hfo hneb]
    exact ⟨applyStatusUpdate o₁ s ps now, rfl, rfl⟩
  · rintro rfl hvp ⟨o, ho, hoid⟩
    have h2 := statusCheck_false_of_valid hvp
    have hfind : ((db.orders.find? fun x => x.id == id)).isSome :=
      List.find?_isSome.mpr ⟨o, ho, by simp [hoid]⟩
    obtain ⟨o₁, hfo⟩ := Option.isSome_iff_exists.mp hfind
    rw [uos_updated statusCheck_false_of_empty h2 hfo rfl]
    exact ⟨applyStatusUpdate o₁ (some "") ps now, rfl, rfl⟩

/-- Witness for C7 (amended) at a concrete input: a bogus non-empty status is
rejected with the validation outcome. -/
theorem C7_witness :
    updateOrderStatus dbO 1 (some "bogus") none 3 = (dbO, .invalidStatus) :=
  ((C7_amended_enum_validation dbO 1 (some "bogus") none 3).1 "bogus" rfl
    (by decide) (by decide)).1

/-- Counterexample to C10 as stated: the empty string is outside the status
enum, yet on a nonexistent order id the endpoint answers not-found (404)
instead of 400, because the truthiness guard skips the enum check for it. -/
theorem C10_counterexample :
    updateOrderStatus db0 1 (some "") none 5 = (db0, .orderMissing) ∧
    validStatuses.contains "" = false ∧
    statusHttp (updateOrderStatus db0 1 (some "") none 5).2 = 404 := by
  decide

/-- C10 (amended): for truthy (non-empty) provided values the enum checks run
before the existence check — an invalid non-empty value yields 400 even when
the order id does not exist — and the not-found outcome is reachable only when
every truthy provided value is inside its enum. -/
theorem C10_amended_validation_first (db : DB) (id : Nat) (s ps : Option String) (now : Nat) :
    (∀ x, s = some x → x ∉ validStatuses → x ≠ "" →
      updateOrderStatus db id s ps now = (db, .invalidStatus) ∧
      statusHttp .invalidStatus = 400 ∧
      (updateOrderStatus db id s ps now).2 ≠ .orderMissing) ∧
    ((∀ x, s = some x → x ∈ validStatuses) →
      ∀ x, ps = some x → x ∉ validPaymentStatuses → x ≠ "" →
      updateOrderStatus db id s ps now = (db, .invalidPayment) ∧
      (updateOrderStatus db id s ps now).2 ≠ .orderMissing) ∧
    ((updateOrderStatus db id s ps now).2 = .orderMissing →
      (truthyStr s = true → (s.getD "") ∈ validStatuses) ∧
      (truthyStr ps = true → (ps.getD "") ∈ validPaymentStatuses)) := by
  refine ⟨?_, ?_, ?_⟩
  · intro x hx hnot hne
    subst hx
    have hcon : validStatuses.contains x = false := by
      cases hcv : validStatuses.contains x
      · rfl
      · exact absurd (by simpa using hcv) hnot
    have hcond : (truthyStr (some x) && !(validStatuses.contains ((some x).getD ""))) = true := by
      have htr : truthyStr (some x) = true := by simp [truthyStr, hne]
      rw [show ((some x).getD "") = x from rfl, htr, hcon]
      rfl
    refine ⟨uos_invalidStatus hcond, rfl, ?_⟩
    rw [uos_invalidStatus hcond]
    simp
  · intro hvs x hx hnot hne
    subst hx
    have h1 := statusCheck_false_of_valid hvs
    have hcon : validPaymentStatuses.contains x = false := by
      cases hcv : validPaymentStatuses.contains x
      · rfl
      · exact absurd (by simpa using hcv) hnot
    have hcond : (truthyStr (some x) &&
        !(validPaymentStatuses.contains ((some x).getD ""))) = true := by
      have htr : truthyStr (some x) = true := by simp [truthyStr, hne]
      rw [show ((some x).getD "") = x from rfl, htr, hcon]
      rfl
    refine ⟨uos_invalidPayment h1 hcond, ?_⟩
    rw [uos_invalidPayment h1 hcond]
    simp
  · intro hres
    cases hc1 : (truthyStr s && !(validStatuses.contains (s.getD ""))) with
    | true =>
      rw [uos_invalidStatus hc1] at hres
      simp at hres
    | false =>
      cases hc2 : (truthyStr ps && !(validPaymentStatuses.contains (ps.getD ""))) with
      | true =>
        rw [uos_invalidPayment hc1 hc2] at hres
        simp at hres
      | false =>
        constructor
        · intro htr
          have hc1' := hc1
          simp [htr] at hc1'
          exact hc1'
        · intro htr
          have hc2' := hc2
          simp [htr] at hc2'
          exact hc2'

/-- Witness for C10 (amended) at a concrete input: a bogus non-empty status on
a nonexistent order id still answers with the validation outcome, not with
not-found. -/
theorem C10_witness :
    updateOrderStatus db0 1 (some "bogus") none 3 = (db0, .invalidStatus) ∧
    (updateOrderStatus db0 1 (some "bogus") none 3).2 ≠ .orderMissing := by
  have h := (C10_amended_validation_first db0 1 (some "bogus") none 3).1 "bogus" rfl
    (by decide) (by decide)
  exact ⟨h.1, h.2.2⟩

/-- Counterexample to C3 as stated: a stock shortfall is answered with HTTP
500 from the generic catch handler, not with 400 — ordering 9 units against
stock 5 yields the insufficient-stock error and status 500. -/
theorem C3_counterexample :
    (createOrder dbA 1 (some 1) (some [⟨some 1, some 9⟩]) 1).2 =
      .serverErr (.insufficientStock "P" 5 9) ∧
    createStatus (createOrder dbA 1 (some 1) (some [⟨some 1, some 9⟩]) 1).2 = 500 ∧
    createStatus (createOrder dbA 1 (some 1) (some [⟨some 1, some 9⟩]) 1).2 ≠ 400 := by
  have h : (createOrder dbA 1 (some 1) (some [⟨some 1, some 9⟩]) 1).2 =
      .serverErr (.insufficientStock "P" 5 9) := by
    simp [createOrder, processItems, dbA, List.find?]
  refine ⟨h, ?_, ?_⟩
  · rw [h]
    rfl
  · rw [h]
    decide

/-- C3 (amended): missing or empty body fields yield 400 and a missing or
not-owned address yields 404, but every failure thrown inside the transaction
— invalid item entry, missing product, stock shortfall — is answered with 500
by the generic catch; the stock-shortfall error still carries the product name
and the available and requested quantities, interpolated into its message. -/
theorem C3_amended_status_codes (db : DB) (uid : Nat) (nid : Nat) :
    (∀ (aOpt : Option Nat) (itsOpt : Option (List ItemReq)),
      (aOpt = none ∨ aOpt = some 0 ∨ itsOpt = none ∨ itsOpt = some []) →
      createOrder db uid aOpt itsOpt nid = (db, .validationErr) ∧
      createStatus .validationErr = 400) ∧
    (∀ (aid : Nat) (its : List ItemReq), aid ≠ 0 → its ≠ [] →
      (¬ ∃ a ∈ db.addresses, a.id = aid ∧ a.user_id = uid) →
      createOrder db uid (some aid) (some its) nid = (db, .addressMissing) ∧
      createStatus .addressMissing = 404) ∧
    (∀ (aid : Nat) (its : List ItemReq), aid ≠ 0 →
      (∃ a ∈ db.addresses, a.id = aid ∧ a.user_id = uid) →
      (∃ it ∈ its, ¬ itemWf it) →
      ∃ e, createOrder db uid (some aid) (some its) nid = (db, .serverErr e) ∧
        createStatus (.serverErr e) = 500) ∧
    (∀ (aid : Nat) (its : List ItemReq) (it : ItemReq) (pid : Nat), aid ≠ 0 →
      (∃ a ∈ db.addresses, a.id = aid ∧ a.user_id = uid) →
      it ∈ its → it.product_id = some pid →
      (¬ ∃ p ∈ db.products, p.id = pid) →
      ∃ e, createOrder db uid (some aid) (some its) nid = (db, .serverErr e) ∧
        createStatus (.serverErr e) = 500) ∧
    (∀ (aid : Nat) (its : List ItemReq) (it : ItemReq) (pid : Nat) (q : Int) (p : Product),
      (db.products.map Product.id).Nodup → aid ≠ 0 →
      (∃ a ∈ db.addresses, a.id = aid ∧ a.user_id = uid) →
      (∀ it' ∈ its, itemWf it') →
      (∀ it' ∈ its, ∀ pid', it'.product_id = some pid' → ∃ p' ∈ db.products, p'.id = pid') →
      it ∈ its → it.product_id = some pid → it.quantity = some q →
      p ∈ db.products → p.id = pid → p.stock_quantity < q →
      ∃ n avail req,
        createOrder db uid (some aid) (some its) nid =
          (db, .serverErr (.insufficientStock n avail req)) ∧
        createStatus (.serverErr (.insufficientStock n avail req)) = 500 ∧
        errMessage (.insufficientStock n avail req) =
          "Insufficient stock for product " ++ n ++ ". Available: " ++ toString avail ++
            ", Requested: " ++ toString req) := by
  refine ⟨?_, ?_, ?_, ?_, ?_⟩
  · intro aOpt itsOpt h
    exact ⟨createOrder_validation h, rfl⟩
  · intro aid its ha hi hno
    exact ⟨createOrder_addressMissing ha hi hno, rfl⟩
  · rintro aid its ha haddr ⟨it, hit, hbad⟩
    have hie : its ≠ [] := by
      intro hh
      rw [hh] at hit
      cases hit
    cases hpi : processItems db.products its with
    | ok o =>
      obtain ⟨ps', tot, lines⟩ := o
      exact absurd ((processItems_ok_wf hpi it hit).1) hbad
    | error e => exact ⟨e, createOrder_of_error ha hie haddr hpi, rfl⟩
  · rintro aid its it pid ha haddr hit hpid hnop
    have hie : its ≠ [] := by
      intro hh
      rw [hh] at hit
      cases hit
    cases hpi : processItems db.products its with
    | ok o =>
      obtain ⟨ps', tot, lines⟩ := o
      exact absurd ((processItems_ok_wf hpi it hit).2 pid hpid) hnop
    | error e => exact ⟨e, createOrder_of_error ha hie haddr hpi, rfl⟩
  · rintro aid its it pid q p hnd ha haddr hwf hex hit hpid hq hp hid hshort
    have hie : its ≠ [] := by
      intro hh
      rw [hh] at hit
      cases hit
    obtain ⟨e, he⟩ := processItems_error_of_short hnd hit hpid hq hp hid hshort
    obtain ⟨n, avail, req, rfl⟩ := processItems_error_kind hwf hex he
    exact ⟨n, avail, req, createOrder_of_error ha hie haddr he, rfl, rfl⟩

/-- Witness for C3 (amended) at concrete inputs: a missing body yields the 400
validation outcome and an address of another user yields the 404 not-found
outcome. -/
theorem C3_witness :
    createOrder dbA 1 none none 1 = (dbA, .validationErr) ∧
    createOrder dbA 2 (some 1) (some [⟨some 1, some 1⟩]) 1 = (dbA, .addressMissing) :=
  ⟨((C3_amended_status_codes dbA 1 1).1 none none (Or.inl rfl)).1,
    ((C3_amended_status_codes dbA 2 1).2.1 1 [⟨some 1, some 1⟩] (by decide) (by decide)
      (by decide)).1⟩

theorem countP_le_one_of_nodup {l : List Address} (hnd : (l.map Address.id).Nodup)
    (id : Nat) (r : Address → Bool) :
    l.countP (fun a => a.id == id && r a) ≤ 1 := by
  induction l with
  | nil => simp
  | cons a t ih =>
    rw [List.map_cons] at hnd
    obtain ⟨hna, hnt⟩ := List.nodup_cons.mp hnd
    by_cases hc : (a.id == id && r a) = true
    · rw [List.countP_cons_of_pos (fun x => x.id == id && r x) t hc]
      have hid : a.id = id := by simpa using ((Bool.and_eq_true _ _).mp hc).1
      have hz : t.countP (fun x => x.id == id && r x) = 0 := by
        apply List.countP_eq_zero.mpr
        intro x hx hpx
        have hxid : x.id = id := by simpa using ((Bool.and_eq_true _ _).mp hpx).1
        exact hna (by rw [hid, ← hxid]; exact List.mem_map_of_mem Address.id hx)
      omega
    · rw [List.countP_cons_of_neg (fun x => x.id == id && r x) t hc]
      exact ih hnt

theorem updateAddress_addresses (db : DB) (uid id : Nat) (a p c : Option String)
    (d : Option Bool) :
    (updateAddress db uid id a p c d).1.addresses = db.addresses ∨
    (updateAddress db uid id a p c d).1.addresses =
      (if d.getD false then unsetDefaults db.addresses uid else db.addresses).map
        (fun x => if x.id = id ∧ x.user_id = uid then applyAddrUpdate x a p c d else x) := by
  unfold updateAddress
  split
  · exact Or.inl rfl
  · split
    · split
      · rename_i hd hcond
        exfalso
        have hdn : d.isNone = true := by
          simp only [Bool.and_eq_true] at hcond
          exact hcond.2
        cases d with
        | none => simp at hd
        | some b => simp at hdn
      · exact Or.inr rfl
    · split
      · exact Or.inl rfl
      · exact Or.inr rfl

theorem createAddress_addresses (db : DB) (uid : Nat) (ad ph ct : String) (d : Bool)
    (nid : Nat) :
    (createAddress db uid ad ph ct d nid).1.addresses = db.addresses ∨
    (createAddress db uid ad ph ct d nid).1.addresses =
      (if d then unsetDefaults db.addresses uid else db.addresses) ++
        [⟨nid, uid, ad, ph, ct, d⟩] := by
  unfold createAddress
  split
  · exact Or.inl rfl
  · exact Or.inr rfl

theorem unsetDefaults_map_id (l : List Address) (uid : Nat) :
    (unsetDefaults l uid).map Address.id = l.map Address.id := by
  simp only [unsetDefaults, List.map_map]
  refine List.map_congr_left fun x _ => ?_
  by_cases h : x.user_id = uid <;> simp [Function.comp, h]

theorem countP_unsetDefaults_self (l : List Address) (uid : Nat) :
    (unsetDefaults l uid).countP (fun x => x.user_id == uid && x.is_default) = 0 := by
  rw [show unsetDefaults l uid =
    l.map (fun x => if x.user_id = uid then { x with is_default := false } else x) from rfl,
    List.countP_map]
  apply List.countP_eq_zero.mpr
  intro x _ hpx
  simp only [Function.comp] at hpx
  by_cases hxu : x.user_id = uid
  · rw [if_pos hxu] at hpx
    simp at hpx
  · rw [if_neg hxu] at hpx
    exact hxu (by simpa using ((Bool.and_eq_true _ _).mp hpx).1)

theorem countP_unsetDefaults_other (l : List Address) (uid u : Nat) (hu : uid ≠ u) :
    (unsetDefaults l uid).countP (fun x => x.user_id == u && x.is_default) =
      l.countP (fun x => x.user_id == u && x.is_default) := by
  rw [show unsetDefaults l uid =
    l.map (fun x => if x.user_id = uid then { x with is_default := false } else x) from rfl,
    List.countP_map]
  apply List.countP_congr
  intro x _
  simp only [Function.comp]
  by_cases hxu : x.user_id = uid
  · rw [if_pos hxu]
    have hne : ¬x.user_id = u := by rw [hxu]; exact hu
    simp [hne]
  · rw [if_neg hxu]

theorem countP_singleton_le_one (p : Address → Bool) (x : Address) :
    List.countP p [x] ≤ 1 := by
  by_cases h : p x = true <;> simp [List.countP_cons, h]

theorem deleteAddress_addresses (db : DB) (uid id : Nat) :
    (deleteAddress db uid id).1.addresses = db.addresses ∨
    (deleteAddress db uid id).1.addresses =
      db.addresses.filter (fun x => !(x.id == id && x.user_id == uid)) := by
  unfold deleteAddress
  split
  · exact Or.inl rfl
  · exact Or.inr rfl

/-- C9: every modelled address-writing operation preserves the invariant that
each customer has at most one default address — creating or updating with
is_default true first unsets the defaults of all that customer's addresses
before the insert or update. -/
theorem C9_single_default_address :
    (∀ (db : DB) (uid : Nat) (ad ph ct : String) (d : Bool) (nid : Nat),
      atMostOneDefault db → atMostOneDefault (createAddress db uid ad ph ct d nid).1) ∧
    (∀ (db : DB) (uid id : Nat) (ad ph ct : Option String) (d : Option Bool),
      (db.addresses.map Address.id).Nodup →
      atMostOneDefault db → atMostOneDefault (updateAddress db uid id ad ph ct d).1) ∧
    (∀ (db : DB) (uid id : Nat),
      atMostOneDefault db → atMostOneDefault (deleteAddress db uid id).1) := by
  refine ⟨?_, ?_, ?_⟩
  · intro db uid ad ph ct d nid hinv u
    show ((createAddress db uid ad ph ct d nid).1.addresses.countP
      (fun x => x.user_id == u && x.is_default)) ≤ 1
    rcases createAddress_addresses db uid ad ph ct d nid with heq | heq
    · rw [heq]
      exact hinv u
    · rw [heq, List.countP_append]
      cases d with
      | false =>
        rw [if_neg (show ¬(false = true) from by decide)]
        have h0 : List.countP (fun (x : Address) => x.user_id == u && x.is_default)
            [⟨nid, uid, ad, ph, ct, false⟩] = 0 := by
          simp [List.countP_cons]
        rw [h0]
        have hb : List.countP (fun (x : Address) => x.user_id == u && x.is_default)
            db.addresses ≤ 1 := hinv u
        omega
      | true =>
        rw [if_pos rfl]
        by_cases hu : uid = u
        · subst hu
          rw [countP_unsetDefaults_self]
          have := countP_singleton_le_one (fun x => x.user_id == uid && x.is_default)
            ⟨nid, uid, ad, ph, ct, true⟩
          omega
        · rw [countP_unsetDefaults_other db.addresses uid u hu]
          have h0 : List.countP (fun (x : Address) => x.user_id == u && x.is_default)
              [⟨nid, uid, ad, ph, ct, true⟩] = 0 := by
            simp [List.countP_cons]
            intro hc
            exact absurd hc hu
          rw [h0]
          have hb : List.countP (fun (x : Address) => x.user_id == u && x.is_default)
              db.addresses ≤ 1 := hinv u
          omega
  · intro db uid id ad ph ct d hnd hinv u
    show ((updateAddress db uid id ad ph ct d).1.addresses.countP
      (fun x => x.user_id == u && x.is_default)) ≤ 1
    rcases updateAddress_addresses db uid id ad ph ct d with heq | heq
    · rw [heq]
      exact hinv u
    · rw [heq]
      cases d with
      | none =>
        rw [if_neg (show ¬(((none : Option Bool)).getD false = true) from by decide),
          List.countP_map]
        refine le_trans (Nat.le_of_eq (List.countP_congr ?_)) (hinv u)
        intro x _
        simp only [Function.comp]
        by_cases hm : x.id = id ∧ x.user_id = uid
        · rw [if_pos hm]
          exact Iff.rfl
        · rw [if_neg hm]
      | some b =>
        cases b with
        | false =>
          rw [if_neg (show ¬((some false).getD false = true) from by decide), List.countP_map]
          refine le_trans (List.countP_mono_left ?_) (hinv u)
          intro x _ hpx
          simp only [Function.comp] at hpx
          by_cases hm : x.id = id ∧ x.user_id = uid
          · rw [if_pos hm] at hpx
            simp [applyAddrUpdate] at hpx
          · rwa [if_neg hm] at hpx
        | true =>
          rw [if_pos (show ((some true).getD false = true) from by decide),
            show unsetDefaults db.addresses uid = db.addresses.map (fun x =>
              if x.user_id = uid then { x with is_default := false } else x) from rfl,
            List.map_map, List.countP_map]
          by_cases hu : uid = u
          · subst hu
            refine le_trans (List.countP_mono_left ?_)
              (countP_le_one_of_nodup hnd id (fun x => x.user_id == uid))
            intro x _ hpx
            simp only [Function.comp] at hpx
            by_cases hxu : x.user_id = uid
            · by_cases hm : x.id = id
              · simp [hm, hxu]
              · rw [if_pos hxu] at hpx
                rw [if_neg (fun hc => hm hc.1)] at hpx
                simp at hpx
            · rw [if_neg hxu] at hpx
              rw [if_neg (fun hc => hxu hc.2)] at hpx
              exact absurd (by simpa using ((Bool.and_eq_true _ _).mp hpx).1) hxu
          · refine le_trans (Nat.le_of_eq (List.countP_congr ?_)) (hinv u)
            intro x _
            simp only [Function.comp]
            by_cases hxu : x.user_id = uid
            · rw [if_pos hxu]
              by_cases hm : x.id = id
              · rw [if_pos ⟨hm, hxu⟩]
                have hne : ¬x.user_id = u := by rw [hxu]; exact hu
                simp [applyAddrUpdate, hne]
              · rw [if_neg (fun hc => hm hc.1)]
                have hne : ¬x.user_id = u := by rw [hxu]; exact hu
                simp [hne]
            · rw [if_neg hxu, if_neg (fun hc => hxu hc.2)]
  · intro db uid id hinv u
    show ((deleteAddress db uid id).1.addresses.countP
      (fun x => x.user_id == u && x.is_default)) ≤ 1
    rcases deleteAddress_addresses db uid id with heq | heq
    · rw [heq]
      exact hinv u
    · rw [heq]
      exact le_trans ((List.filter_sublist _).countP_le _) (hinv u)

/-- Witness for C9 at a concrete input: creating a first default address for
user 1 in the empty database keeps the invariant. -/
theorem C9_witness : atMostOneDefault (createAddress db0 1 "a" "p" "c" true 1).1 :=
  C9_single_default_address.1 db0 1 "a" "p" "c" true 1
    (fun u => by simp [defaultCount, db0])

end Shopback
